import Mathlib

/-!
Verification of `query-crates-index` (src/src/main.rs) against its
natural-language specification.

The development shallowly embeds the program's data model and operations:

* `Version`, `VersionReq`, `Dependency`, `PackageId`, `Summary`, `Crate` model
  the cargo data used by the program (restricted to the single registry source
  the program ever uses).
* `list_registry_crates`, `fmt_duration_as_secs`, `find_crates`,
  `save_crate_list`, `load_cached_crate_list`, `get_crate_list` embed the
  functions of `main.rs`; printing is modelled by returning the list of
  emitted lines, the file system by an association list, elapsed wall-clock
  times by explicit `Duration` arguments, and a Rust panic by
  `Failure.panic`.
* The dependency resolver and the acyclic dependency graph described by the
  specification have no implementation in the source (the source only imports
  `daggy::Dag` and never uses it); they are modelled from the specification's
  own words, as marked in their doc comments.
-/

namespace QueryCratesIndex

/-- Semantic version, modelled as a `major.minor.patch` triple of naturals.
Pre-release and build metadata are not used by any property verified here and
are omitted. -/
structure Version where
  major : Nat
  minor : Nat
  patch : Nat
deriving DecidableEq, Repr

/-- Three-way comparison on naturals, mirroring Rust's `Ord for u64`. -/
def natCmp (a b : Nat) : Ordering :=
  if a < b then .lt else if b < a then .gt else .eq

/-- Three-way comparison on characters by Unicode scalar value. -/
def charCmp (a b : Char) : Ordering := natCmp a.toNat b.toNat

/-- Lexicographic three-way comparison on character lists. -/
def charListCmp : List Char → List Char → Ordering
  | [], [] => .eq
  | [], _ :: _ => .lt
  | _ :: _, [] => .gt
  | a :: as, b :: bs => (charCmp a b).then (charListCmp as bs)

/-- Three-way comparison on strings, mirroring Rust's lexicographic
`Ord for String` (UTF-8 byte order coincides with scalar-value order). -/
def strCmp (a b : String) : Ordering := charListCmp a.data b.data

/-- Lexicographic comparison of versions: major, then minor, then patch,
mirroring semver precedence for release versions. -/
def versionCmp (a b : Version) : Ordering :=
  (natCmp a.major b.major).then ((natCmp a.minor b.minor).then (natCmp a.patch b.patch))

/-- Boolean `a ≤ b` on versions, derived from `versionCmp`. -/
def versionLe (a b : Version) : Bool :=
  match versionCmp a b with
  | .gt => false
  | _ => true

/-- Boolean `a < b` on versions, derived from `versionCmp`. -/
def versionLt (a b : Version) : Bool :=
  versionCmp a b = Ordering.lt

/-- Modelled from the spec: a single semver comparator of a version
requirement (the `semver` crate is an external dependency of cargo, not part
of this repository's source).  The subset modelled suffices for the
requirements exercised here; `matches` is a total boolean predicate as the
spec demands. -/
inductive Comparator where
  | exact (v : Version)
  | caret (v : Version)
  | ge (v : Version)
  | lt (v : Version)
  | any
deriving DecidableEq, Repr

/-- Next major version, the exclusive upper bound of a caret requirement. -/
def caretUpper (v : Version) : Version :=
  if v.major > 0 then ⟨v.major + 1, 0, 0⟩
  else if v.minor > 0 then ⟨0, v.minor + 1, 0⟩
  else ⟨0, 0, v.patch + 1⟩

/-- Modelled from the spec: whether a version satisfies one comparator. -/
def Comparator.matches : Comparator → Version → Bool
  | .exact w, v => v = w
  | .caret w, v => versionLe w v && versionLt v (caretUpper w)
  | .ge w, v => versionLe w v
  | .lt w, v => versionLt v w
  | .any, _ => true

/-- Modelled from the spec: a version requirement is a conjunction of
comparators (for example `>=1.0, <2.0`). -/
structure VersionReq where
  comparators : List Comparator
deriving DecidableEq, Repr

/-- Modelled from the spec: the requirement's `matches(version) -> bool`
predicate — every comparator must accept the version. -/
def VersionReq.matches (r : VersionReq) (v : Version) : Bool :=
  r.comparators.all (fun c => c.matches v)

/-- Dependency kind, per the spec's data model (`normal`, `build`, `dev`;
an absent kind means `normal`). -/
inductive DepKind where
  | normal
  | build
  | dev
deriving DecidableEq, Repr

/-- A declared dependency: name, version requirement and kind.  Models
cargo's `Dependency` restricted to the fields the verified properties
mention. -/
structure Dependency where
  name : String
  req : VersionReq
  kind : DepKind
deriving DecidableEq, Repr

/-- Models cargo's `PackageId` as the (name, version) identity pair.  The
program only ever uses the single crates.io registry source, so the
`source_id` component is constant and omitted. -/
structure PackageId where
  name : String
  version : Version
deriving DecidableEq, Repr

/-- Comparison of package identities: name first, then version, mirroring the
derived lexicographic `Ord` of cargo's `PackageId` (with the constant source
component dropped). -/
def pkgIdCmp (a b : PackageId) : Ordering :=
  (strCmp a.name b.name).then (versionCmp a.version b.version)

/-- Models cargo's `Summary`, with exactly the fields the program's
`SummaryDef` serializes: package id, dependencies, and features. -/
structure Summary where
  pkg_id : PackageId
  dependencies : List Dependency
  features : List (String × List String)
deriving DecidableEq, Repr

/-- The program's `Crate` newtype around `Summary` (main.rs line 76). -/
structure Crate where
  summary : Summary
deriving DecidableEq, Repr

/-- `Crate::new` (main.rs line 82). -/
def Crate.new (summary : Summary) : Crate := ⟨summary⟩

/-- `impl Ord for Crate` (main.rs lines 129-133): compare only the summaries'
package ids. -/
def crateCmp (a b : Crate) : Ordering :=
  pkgIdCmp a.summary.pkg_id b.summary.pkg_id

/-- The program's `CrateSet = BTreeSet<Crate>`, modelled as the list of the
set's elements.  `crateSetInsert` mirrors `BTreeSet::insert`: when an element
comparing equal (under `Ord for Crate`) is already present the set is
unchanged, otherwise the new element is added.  The sorted internal layout of
the B-tree is not modelled; no verified property depends on iteration
order. -/
def CrateSet := List Crate

/-- `BTreeSet::insert`: keep the existing element when one compares equal. -/
def crateSetInsert (s : List Crate) (c : Crate) : List Crate :=
  if s.any (fun y => crateCmp y c = Ordering.eq) then s else s ++ [c]

/-- Collecting an iterator of crates into a `BTreeSet` inserts the elements
left to right. -/
def crateSetOfList (cs : List Crate) : List Crate :=
  cs.foldl crateSetInsert []

/-- Rust's `std::time::Duration`, as whole seconds plus subsecond nanoseconds.
Rust's type maintains `nanos < 1_000_000_000`; here the bound is carried as a
hypothesis where needed. -/
structure Duration where
  secs : Nat
  nanos : Nat
deriving DecidableEq, Repr

/-- Rust's `{:03}` format specifier on an unsigned value: left-pad the decimal
representation with zeros to a minimum width of three. -/
def padZeros (width : Nat) (s : String) : String :=
  String.mk (List.replicate (width - s.length) '0') ++ s

/-- `fmt_duration_as_secs` (main.rs lines 161-164):
`format!("{}.{:03} s", duration.as_secs(), duration.subsec_nanos() / 1000_000)`. -/
def fmt_duration_as_secs (duration : Duration) : String :=
  Nat.repr duration.secs ++ "." ++ padZeros 3 (Nat.repr (duration.nanos / 1000000)) ++ " s"

mutual

/-- A directory tree on local storage, the input of the index walker.  An
`unreadable` node is an entry that the walk can see but cannot stat or read.
Children are carried by the mutually defined `FsList`. -/
inductive FsEntry where
  | file (name : String)
  | unreadable (name : String)
  | dir (name : String) (children : FsList)

/-- List of sibling entries of a directory (mutual with `FsEntry`). -/
inductive FsList where
  | nil
  | cons (e : FsEntry) (rest : FsList)

end

/-- A successfully read directory entry as yielded by the `walkdir` crate:
its depth below the walk root (the root itself has depth 0), whether it is a
regular file, the names of its ancestor entries starting at the root, and its
own file name. -/
structure DirEntry where
  depth : Nat
  isFile : Bool
  ancestors : List String
  name : String
deriving DecidableEq, Repr

/-- A walk item that failed to stat or read, identified by its place in the
tree. -/
structure WalkError where
  ancestors : List String
  name : String
deriving DecidableEq, Repr

/-- One item of the `WalkDir` iterator: Rust's `Result<DirEntry, Error>`. -/
inductive WEntry where
  | ok (entry : DirEntry)
  | err (e : WalkError)
deriving DecidableEq, Repr

mutual

/-- Models the traversal of the external `walkdir` crate, used by
`list_registry_crates` (main.rs line 42): depth-first from the root, the root
itself yielded at depth 0, every directory, file and failing entry yielded,
and no name-based filtering of any kind. -/
def walkFrom : FsEntry → Nat → List String → List WEntry
  | .file n, depth, anc => [WEntry.ok ⟨depth, true, anc, n⟩]
  | .unreadable n, _, anc => [WEntry.err ⟨anc, n⟩]
  | .dir n cs, depth, anc => WEntry.ok ⟨depth, false, anc, n⟩ ::
      walkList cs (depth + 1) (anc ++ [n])

/-- Walk of a list of sibling entries, in order (mutual with `walkFrom`). -/
def walkList : FsList → Nat → List String → List WEntry
  | .nil, _, _ => []
  | .cons e rest, depth, anc => walkFrom e depth anc ++ walkList rest depth anc

end

/-- The filter applied by `list_registry_crates` (main.rs lines 43-52) to the
`WalkDir` item stream: `e.ok()` drops failed entries, and of the successful
ones only regular files at depth strictly greater than 1 contribute their
file name. -/
def crateNamesOfStream (es : List WEntry) : List String :=
  es.filterMap (fun e =>
    match e with
    | .err _ => none
    | .ok f => if f.isFile = true ∧ 1 < f.depth then some f.name else none)

/-- `list_registry_crates` (main.rs lines 41-53). -/
def list_registry_crates (regpath : FsEntry) : List String :=
  crateNamesOfStream (walkFrom regpath 0 [])

/-- Abnormal termination of the process: a Rust panic with its message. -/
inductive Failure where
  | panicked (msg : String)
deriving DecidableEq, Repr

/-- The line `println!("Found {} crates in {}", ...)` (main.rs line 172). -/
def foundLine (n : Nat) (d : Duration) : String :=
  "Found " ++ Nat.repr n ++ " crates in " ++ fmt_duration_as_secs d

/-- The line `println!("Loaded {} crate versions in {}", ...)` (main.rs
line 182). -/
def loadedLine (n : Nat) (d : Duration) : String :=
  "Loaded " ++ Nat.repr n ++ " crate versions in " ++ fmt_duration_as_secs d

/-- `find_crates` (main.rs lines 166-185).  The registry source is modelled
by `query`, the composition of `Dependency::parse_no_deprecated` and
`source.query_vec(..).ok()`: for a file name found in the index it may return
the summaries of that crate's published versions, or `none` when the query
fails (`.ok()` discards the error).  The two `Instant::now()/elapsed`
measurements are passed in as `d1`, `d2`; the `println!` output is returned
alongside the crate set. -/
def find_crates (regpath : FsEntry) (query : String → Option (List Summary))
    (d1 d2 : Duration) : Except Failure (List Crate × List String) :=
  let crate_names := list_registry_crates regpath
  let crates := crateSetOfList (((crate_names.filterMap query).map
    (fun summaries => summaries.map Crate.new)).flatten)
  Except.ok (crates, [foundLine crate_names.length d1, loadedLine crates.length d2])

/-- Content of a file in the modelled file system: the bincode serialization
of a crate set, kept symbolically. -/
inductive FileData where
  | bincodeOf (crates : List Crate)
deriving DecidableEq, Repr

/-- The ambient file system, as a path-to-content association list; the most
recently created file for a path comes first. -/
def FileSystem := List (String × FileData)

/-- Path lookup; `none` means the path does not exist. -/
def lookupFile : List (String × FileData) → String → Option FileData
  | [], _ => none
  | (p, d) :: rest, path => if p = path then some d else lookupFile rest path

/-- `File::create` followed by writing the serialized data. -/
def createFile (fs : List (String × FileData)) (path : String) (d : FileData) :
    List (String × FileData) :=
  (path, d) :: fs

/-- The line `println!("Saved index cache in {}", ...)` (main.rs line 199). -/
def savedLine (d : Duration) : String :=
  "Saved index cache in " ++ fmt_duration_as_secs d

/-- `save_crate_list` (main.rs lines 193-201): create the file, serialize the
set into it with bincode, and report the elapsed time `d`. -/
def save_crate_list (crates : List Crate) (path : String) (fs : FileSystem)
    (d : Duration) : Except Failure (FileSystem × List String) :=
  Except.ok (createFile fs path (FileData.bincodeOf crates), [savedLine d])

/-- `load_cached_crate_list` (main.rs lines 187-191): the body is
`unimplemented!()`, which unconditionally panics with the message
"not implemented"; the path and the file system are never consulted. -/
def load_cached_crate_list (_path : String) (_fs : FileSystem) :
    Except Failure (List Crate) :=
  Except.error (Failure.panicked "not implemented")

/-- The cache file name built by `get_crate_list` (main.rs lines 205-207):
the registry directory's file name with `.cache` appended. -/
def cacheFileName (regname : String) : String := regname ++ ".cache"

/-- `get_crate_list` (main.rs lines 203-215): if the cache file exists, load
it (which panics, since loading is unimplemented); otherwise walk the
registry, save the result to the cache file and return it.  `regname` is the
file name of the registry index path, `regtree` the directory tree it
denotes, and `d1 d2 d3` the three elapsed-time measurements. -/
def get_crate_list (regname : String) (regtree : FsEntry)
    (query : String → Option (List Summary)) (fs : FileSystem)
    (d1 d2 d3 : Duration) : Except Failure (List Crate × FileSystem × List String) :=
  let cache := cacheFileName regname
  if (lookupFile fs cache).isSome then
    match load_cached_crate_list cache fs with
    | .error e => .error e
    | .ok crates => .ok (crates, fs, [])
  else
    match find_crates regtree query d1 d2 with
    | .error e => .error e
    | .ok (crates, log1) =>
      match save_crate_list crates cache fs d3 with
      | .error e => .error e
      | .ok (fs2, log2) => .ok (crates, fs2, log1 ++ log2)

/-- Modelled from the spec: a Version Record, one parsed package-version
entry (spec §3).  The repository's source contains no parser or resolver, so
the record is taken from the spec's data model verbatim. -/
structure VersionRecord where
  name : String
  vers : Version
  deps : List Dependency
  cksum : String
  features : List (String × List String)
  yanked : Bool
deriving DecidableEq, Repr

/-- Modelled from the spec: a Package, the version records of one package
name with `versions` stored newest-first (spec §3). -/
structure Package where
  name : String
  versions : List VersionRecord
deriving DecidableEq, Repr

/-- Modelled from the spec: the Package Index's `by_name` mapping with unique
keys (spec §3), as an association list. -/
structure PackageIndex where
  by_name : List (String × Package)
deriving DecidableEq, Repr

/-- First-match lookup in the `by_name` mapping. -/
def lookupByName : List (String × Package) → String → Option Package
  | [], _ => none
  | (k, p) :: rest, key => if k = key then some p else lookupByName rest key

/-- Well-formedness of a Package Index, per the spec's Package invariant
(spec §3): every version record stored under a name carries that name. -/
def IndexWF (index : PackageIndex) : Prop :=
  ∀ kp ∈ index.by_name, ∀ v ∈ kp.2.versions, v.name = kp.1

/-- Modelled from the spec: the Dependency Resolver (spec §4.4), which is
absent from the source (the only candidate, `filter_dependencies`, is
commented out).  Policy, in the spec's words: look up `by_name[dep.name]`;
if absent return none; otherwise scan the package's `versions` in stored
(newest-first) order and return the first record whose version satisfies
`dep.requirement`. -/
def resolve (dep : Dependency) (index : PackageIndex) : Option VersionRecord :=
  match lookupByName index.by_name dep.name with
  | none => none
  | some pkg => pkg.versions.find? (fun w => dep.req.matches w.vers)

/-- Modelled from the spec: the dependency graph (spec §3, §4.5).  The source
only imports `daggy::Dag` (main.rs line 13) and never constructs a graph, so
the graph is modelled from the spec's words: an arena of node handles
`0, …, nodeCount - 1` plus an edge list, with an explicit
"would this edge create a cycle" check on insertion. -/
structure Dag where
  nodeCount : Nat
  edges : List (Nat × Nat)
deriving DecidableEq, Repr

/-- The error reported when an edge insertion would close a cycle, carrying
the offending edge (spec §4.5 step 3). -/
inductive GraphError where
  | wouldCycle (a b : Nat)
deriving DecidableEq, Repr

/-- The edge relation of a graph. -/
def EdgeRel (g : Dag) (a b : Nat) : Prop := (a, b) ∈ g.edges

/-- Acyclicity: no nonempty edge sequence leads from a vertex back to
itself. -/
def AcyclicDag (g : Dag) : Prop := ∀ v, ¬ Relation.TransGen (EdgeRel g) v v

/-- All edge targets of an edge list — an upper bound for every set produced
by the reachability saturation below. -/
def targetsOf (es : List (Nat × Nat)) : Finset Nat := (es.map Prod.snd).toFinset

/-- One saturation round: add the target of every edge whose source is
already in the set. -/
def stepClose (es : List (Nat × Nat)) (S : Finset Nat) : Finset Nat :=
  es.foldl (fun acc e => if e.1 ∈ S then insert e.2 acc else acc) S

/-- Iterated saturation rounds. -/
def iterClose (es : List (Nat × Nat)) : Nat → Finset Nat → Finset Nat
  | 0, S => S
  | k + 1, S => iterClose es k (stepClose es S)

/-- The direct successors of a vertex. -/
def succsOf (es : List (Nat × Nat)) (a : Nat) : Finset Nat :=
  ((es.filter (fun e => e.1 = a)).map Prod.snd).toFinset

/-- The set of vertices reachable from `a` by at least one edge: saturate the
direct successors of `a`; `es.length + 1` rounds always reach the fixed
point. -/
def reachableFrom (es : List (Nat × Nat)) (a : Nat) : Finset Nat :=
  iterClose es (es.length + 1) (succsOf es a)

/-- Modelled from the spec: edge insertion with cycle rejection (spec §4.5
step 3, §9): before inserting `a → b`, check reachability from the target
back to the source; a self-loop or an existing path from `b` to `a` makes the
insertion fail with a contextual error, otherwise the edge is added. -/
def add_edge (g : Dag) (a b : Nat) : Except GraphError Dag :=
  if a = b ∨ a ∈ reachableFrom g.edges b then
    Except.error (GraphError.wouldCycle a b)
  else
    Except.ok ⟨g.nodeCount, (a, b) :: g.edges⟩

/-- Modelled from the spec: node allocation (spec §4.5 step 1) — a fresh
handle, edges untouched. -/
def add_node (g : Dag) : Dag := ⟨g.nodeCount + 1, g.edges⟩

/-- One step of a graph construction run. -/
inductive BuildStep where
  | node
  | edge (a b : Nat)
deriving DecidableEq, Repr

/-- Apply one construction step. -/
def applyStep (g : Dag) : BuildStep → Except GraphError Dag
  | .node => Except.ok (add_node g)
  | .edge a b => add_edge g a b

/-- The empty graph every build starts from. -/
def emptyDag : Dag := ⟨0, []⟩

/-- A graph build: apply the steps in order starting from the empty graph;
the first rejected edge insertion aborts the whole construction (spec §4.5
step 3). -/
def buildDag (steps : List BuildStep) : Except GraphError Dag :=
  steps.foldlM applyStep emptyDag

/-- Closure of a vertex set under the edge relation: every edge whose source
is in the set has its target in the set. -/
def IsClosed (es : List (Nat × Nat)) (S : Finset Nat) : Prop :=
  ∀ e ∈ es, e.1 ∈ S → e.2 ∈ S

/-! ### Concrete example inputs used by witnesses and counterexamples -/

/-- Crate for the C9 witness: identity ("x", 1.0.0) with one feature. -/
def exC9CrateA : Crate := Crate.new ⟨⟨"x", ⟨1, 0, 0⟩⟩, [], [("extras", [])]⟩

/-- Crate for the C9 witness: the same identity with different fields. -/
def exC9CrateB : Crate := Crate.new ⟨⟨"x", ⟨1, 0, 0⟩⟩, [], []⟩

/-- Summary for the C3 counterexample: ("x", 1.0.0) with a feature. -/
def exC3SummaryA : Summary := ⟨⟨"x", ⟨1, 0, 0⟩⟩, [], [("serde", [])]⟩

/-- Second summary for the C3 counterexample: the same ("x", 1.0.0) identity
from a second occurrence, with different contents. -/
def exC3SummaryB : Summary := ⟨⟨"x", ⟨1, 0, 0⟩⟩, [], []⟩

/-- Registry tree for the C3 counterexample: one crate file `reg/3/x`. -/
def exC3Tree : FsEntry := .dir "reg" (.cons (.dir "3" (.cons (.file "x") .nil)) .nil)

/-- Registry source for the C3 counterexample: crate `x` has two version
records with the same (name, version) identity. -/
def exC3Query : String → Option (List Summary) :=
  fun n => if n = "x" then some [exC3SummaryA, exC3SummaryB] else none

/-- Example tree for the C5 witness: `r/sh/a`, a file at depth 2. -/
def exC5Tree : FsEntry :=
  .dir "r" (.cons (.dir "sh" (.cons (.file "a") .nil)) .nil)

/-- Example tree for C6: `r/.git/objects/ab`, a regular file inside the
version-control metadata directory. -/
def exC6Tree : FsEntry :=
  .dir "r" (.cons (.dir ".git"
    (.cons (.dir "objects" (.cons (.file "ab") .nil)) .nil)) .nil)

/-- Example tree for C7 with an unreadable entry: `r/1/{a, bad}` where `bad`
cannot be stat'd or read. -/
def exC7BadTree : FsEntry :=
  .dir "r" (.cons (.dir "1" (.cons (.file "a") (.cons (.unreadable "bad") .nil))) .nil)

/-- The same tree without the unreadable entry. -/
def exC7GoodTree : FsEntry :=
  .dir "r" (.cons (.dir "1" (.cons (.file "a") .nil)) .nil)

/-- Version record 2.0.0 of crate `b` for the C1 witness. -/
def exC1Vr20 : VersionRecord := ⟨"b", ⟨2, 0, 0⟩, [], "cksum20", [], false⟩

/-- Version record 1.5.0 of crate `b` for the C1 witness. -/
def exC1Vr15 : VersionRecord := ⟨"b", ⟨1, 5, 0⟩, [], "cksum15", [], false⟩

/-- Package index for the C1 witness: crate `b` with versions stored
newest-first: [2.0.0, 1.5.0]. -/
def exC1Index : PackageIndex := ⟨[("b", ⟨"b", [exC1Vr20, exC1Vr15]⟩)]⟩

/-- Dependency for the C1 witness: `b` with requirement `^1.0`. -/
def exC1Dep : Dependency := ⟨"b", ⟨[Comparator.caret ⟨1, 0, 0⟩]⟩, DepKind.normal⟩

/-- Build steps for the C2 witness: two nodes and the edge `0 → 1`. -/
def exC2Steps : List BuildStep := [.node, .node, .edge 0 1]

/-- The graph the C2 witness build produces. -/
def exC2Dag : Dag := ⟨2, [(0, 1)]⟩

/-- File system for the C8 witness: the cache file `reg.cache` exists. -/
def exC8Fs : FileSystem := [("reg.cache", FileData.bincodeOf [])]

/-- Registry tree for the C8 witness: an empty registry directory. -/
def exC8Tree : FsEntry := .dir "reg" .nil

/-! ### Helper lemmas -/

set_option maxRecDepth 10000 in
/-- Decimal representations of naturals below 1000 have at most three
digits. -/
lemma repr_length_le_three : ∀ n < 1000, (Nat.repr n).length ≤ 3 := by decide

/-- Zero-padding a string of at most three characters to width three yields
exactly three characters. -/
lemma padZeros_length (s : String) (h : s.length ≤ 3) : (padZeros 3 s).length = 3 := by
  simp [padZeros, String.length_append, String.length_mk]
  omega

lemma natCmp_eq_iff (a b : Nat) : natCmp a b = Ordering.eq ↔ a = b := by
  unfold natCmp
  by_cases h1 : a < b
  · simp [h1]; omega
  · by_cases h2 : b < a
    · simp [h1, h2]; omega
    · simp [h1, h2]; omega

lemma ordering_then_eq_iff (o p : Ordering) :
    o.then p = Ordering.eq ↔ o = Ordering.eq ∧ p = Ordering.eq := by
  cases o <;> simp [Ordering.then]

lemma charCmp_eq_iff (a b : Char) : charCmp a b = Ordering.eq ↔ a = b := by
  unfold charCmp
  rw [natCmp_eq_iff]
  constructor
  · intro h; exact Char.eq_of_val_eq (UInt32.ext h)
  · intro h; rw [h]

lemma charListCmp_eq_iff : ∀ as bs : List Char, charListCmp as bs = Ordering.eq ↔ as = bs
  | [], [] => by simp [charListCmp]
  | [], _ :: _ => by simp [charListCmp]
  | _ :: _, [] => by simp [charListCmp]
  | a :: as, b :: bs => by
    simp [charListCmp, ordering_then_eq_iff, charCmp_eq_iff, charListCmp_eq_iff as bs]

lemma strCmp_eq_iff (a b : String) : strCmp a b = Ordering.eq ↔ a = b := by
  unfold strCmp
  rw [charListCmp_eq_iff]
  constructor
  · intro h; cases a; cases b; exact congrArg String.mk h
  · intro h; rw [h]

lemma versionCmp_eq_iff (a b : Version) : versionCmp a b = Ordering.eq ↔ a = b := by
  unfold versionCmp
  rw [ordering_then_eq_iff, ordering_then_eq_iff, natCmp_eq_iff, natCmp_eq_iff, natCmp_eq_iff]
  constructor
  · rintro ⟨h1, h2, h3⟩; cases a; cases b; simp_all
  · intro h; subst h; simp

lemma pkgIdCmp_eq_iff (a b : PackageId) : pkgIdCmp a b = Ordering.eq ↔ a = b := by
  unfold pkgIdCmp
  rw [ordering_then_eq_iff, strCmp_eq_iff, versionCmp_eq_iff]
  constructor
  · rintro ⟨h1, h2⟩; cases a; cases b; simp_all
  · intro h; subst h; simp

lemma crateCmp_eq_iff (a b : Crate) :
    crateCmp a b = Ordering.eq ↔ a.summary.pkg_id = b.summary.pkg_id :=
  pkgIdCmp_eq_iff _ _

/-- `BTreeSet::insert` either leaves the set unchanged (an equal element was
present) or appends the new element (no equal element was present). -/
lemma crateSetInsert_cases (acc : List Crate) (x : Crate) :
    ((∃ y ∈ acc, crateCmp y x = Ordering.eq) ∧ crateSetInsert acc x = acc) ∨
    ((∀ y ∈ acc, crateCmp y x ≠ Ordering.eq) ∧ crateSetInsert acc x = acc ++ [x]) := by
  unfold crateSetInsert
  by_cases h : acc.any (fun y => crateCmp y x = Ordering.eq)
  · left
    refine ⟨?_, by rw [if_pos h]⟩
    simpa using h
  · right
    refine ⟨?_, by rw [if_neg h]⟩
    simpa using h

/-- Folding `BTreeSet::insert` over a stream preserves the absence of
identity-equal pairs. -/
lemma pairwise_foldl_crateSetInsert (cs : List Crate) :
    ∀ acc : List Crate, acc.Pairwise (fun a b => crateCmp a b ≠ Ordering.eq) →
      (cs.foldl crateSetInsert acc).Pairwise (fun a b => crateCmp a b ≠ Ordering.eq) := by
  induction cs with
  | nil => intro acc h; exact h
  | cons x rest ih =>
    intro acc h
    rw [List.foldl_cons]
    apply ih
    rcases crateSetInsert_cases acc x with ⟨_, heq⟩ | ⟨hne, heq⟩
    · rw [heq]; exact h
    · rw [heq, List.pairwise_append]
      refine ⟨h, List.pairwise_singleton _ _, ?_⟩
      intro a ha b hb
      rw [List.mem_singleton] at hb
      subst hb
      exact hne a ha

/-- Every member of the folded set is the first element of the stream with
its identity (relative to a starting set containing no equal element). -/
lemma mem_foldl_crateSetInsert_first (cs : List Crate) :
    ∀ (acc : List Crate) (c : Crate), c ∈ cs.foldl crateSetInsert acc → c ∉ acc →
      (∀ y ∈ acc, crateCmp y c ≠ Ordering.eq) ∧
      ∃ pre post, cs = pre ++ c :: post ∧ ∀ y ∈ pre, crateCmp y c ≠ Ordering.eq := by
  induction cs with
  | nil =>
    intro acc c hmem hnot
    rw [List.foldl_nil] at hmem
    exact absurd hmem hnot
  | cons x rest ih =>
    intro acc c hmem hnot
    rw [List.foldl_cons] at hmem
    by_cases hx : c ∈ crateSetInsert acc x
    · rcases crateSetInsert_cases acc x with ⟨_, heq⟩ | ⟨hne, heq⟩
      · rw [heq] at hx
        exact absurd hx hnot
      · rw [heq] at hx
        rcases List.mem_append.mp hx with h1 | h2
        · exact absurd h1 hnot
        · have hcx : c = x := List.mem_singleton.mp h2
          subst hcx
          exact ⟨hne, [], rest, rfl, by simp⟩
    · obtain ⟨hacc2, pre, post, hrest, hpre⟩ := ih (crateSetInsert acc x) c hmem hx
      have haccne : ∀ y ∈ acc, crateCmp y c ≠ Ordering.eq := by
        intro y hy
        rcases crateSetInsert_cases acc x with ⟨_, heq⟩ | ⟨_, heq⟩ <;> rw [heq] at hacc2
        · exact hacc2 y hy
        · exact hacc2 y (List.mem_append_left _ hy)
      refine ⟨haccne, x :: pre, post, by rw [hrest]; rfl, ?_⟩
      intro y hy
      rcases List.mem_cons.mp hy with rfl | hy2
      · rcases crateSetInsert_cases acc y with ⟨⟨z, hz, hzy⟩, heq⟩ | ⟨_, heq⟩
        · rw [heq] at hacc2
          intro hyc
          have hz_id := (crateCmp_eq_iff z y).mp hzy
          have hy_id := (crateCmp_eq_iff y c).mp hyc
          exact hacc2 z hz ((crateCmp_eq_iff z c).mpr (hz_id.trans hy_id))
        · rw [heq] at hacc2
          exact hacc2 y (List.mem_append_right _ (List.mem_singleton_self y))
      · exact hpre y hy2

/-! ### C9 — crate ordering and set deduplication -/

/-- C9: the ordering of `Crate` values is exactly the ordering of their
package identities — dependencies and features are ignored, so two crates
compare equal precisely when their (name, version) identities coincide — and
consequently a crate set built by folding `BTreeSet::insert` over a stream
contains at most one crate per identity, the kept representative being the
first stream element with that identity. -/
theorem crate_ord_is_identity_ord_and_first_wins :
    (∀ a b : Crate, crateCmp a b = pkgIdCmp a.summary.pkg_id b.summary.pkg_id) ∧
    (∀ a b : Crate, crateCmp a b = Ordering.eq ↔ a.summary.pkg_id = b.summary.pkg_id) ∧
    (∀ cs : List Crate, (crateSetOfList cs).Pairwise (fun a b => crateCmp a b ≠ Ordering.eq)) ∧
    (∀ (cs : List Crate) (c : Crate), c ∈ crateSetOfList cs →
      ∃ pre post, cs = pre ++ c :: post ∧ ∀ y ∈ pre, crateCmp y c ≠ Ordering.eq) := by
  refine ⟨fun a b => rfl, crateCmp_eq_iff, ?_, ?_⟩
  · intro cs
    exact pairwise_foldl_crateSetInsert cs [] List.Pairwise.nil
  · intro cs c hmem
    exact (mem_foldl_crateSetInsert_first cs [] c hmem (List.not_mem_nil c)).2


/-- Witness for C9: two crates share the identity ("x", 1.0.0) but differ in
their features; collecting them keeps only the first, and the theorem
produces its first-occurrence decomposition. -/
theorem crate_ord_is_identity_ord_and_first_wins_witness :
    exC9CrateA ≠ exC9CrateB ∧
    crateSetOfList [exC9CrateA, exC9CrateB] = [exC9CrateA] ∧
    exC9CrateA ∈ crateSetOfList [exC9CrateA, exC9CrateB] ∧
    ∃ pre post, [exC9CrateA, exC9CrateB] = pre ++ exC9CrateA :: post ∧
      ∀ y ∈ pre, crateCmp y exC9CrateA ≠ Ordering.eq :=
  ⟨by decide, by decide, by decide,
    crate_ord_is_identity_ord_and_first_wins.2.2.2 [exC9CrateA, exC9CrateB] exC9CrateA (by decide)⟩

/-! ### C3 — duplicate identities are merged silently, not reported -/



/-- C3 counterexample: the index contains two distinct version records with
the same ("x", 1.0.0) identity, yet `find_crates` returns `Ok` — no
integrity error — with the two records silently merged into the single first
one, and its complete printed output is just the two aggregate count lines,
reporting nothing about the duplicate. -/
theorem duplicate_identity_merged_not_reported :
    exC3SummaryA ≠ exC3SummaryB ∧
    exC3SummaryA.pkg_id = exC3SummaryB.pkg_id ∧
    find_crates exC3Tree exC3Query ⟨0, 0⟩ ⟨0, 0⟩ =
      Except.ok ([Crate.new exC3SummaryA],
        ["Found 1 crates in 0.000 s", "Loaded 1 crate versions in 0.000 s"]) :=
  ⟨by decide, rfl, rfl⟩

/-- C3 amended: when the registry index contains two version records with the
same (name, version) identity, building the crate set does not report any
data-integrity violation: `find_crates` always returns `Ok`, its only output
is the two aggregate count lines, and the duplicates are silently merged —
the resulting set never holds two identity-equal crates. -/
theorem find_crates_merges_duplicates_silently :
    ∀ (regpath : FsEntry) (query : String → Option (List Summary)) (d1 d2 : Duration),
      ∃ crates : List Crate,
        find_crates regpath query d1 d2 =
          Except.ok (crates, [foundLine (list_registry_crates regpath).length d1,
            loadedLine crates.length d2]) ∧
        crates.Pairwise (fun a b => crateCmp a b ≠ Ordering.eq) := by
  intro regpath query d1 d2
  exact ⟨_, rfl, pairwise_foldl_crateSetInsert _ [] List.Pairwise.nil⟩

/-! ### C10 — duration formatting -/

/-- C10: `fmt_duration_as_secs` is a total function (hence deterministic) and
returns the string `<s>.<mmm> s`, where `<s>` is the duration's whole seconds
and `<mmm>` is the subsecond nanoseconds divided by 1,000,000, zero-padded to
exactly three digits. -/
theorem fmt_duration_as_secs_spec (d : Duration) (h : d.nanos < 1000000000) :
    fmt_duration_as_secs d =
      Nat.repr d.secs ++ "." ++ padZeros 3 (Nat.repr (d.nanos / 1000000)) ++ " s" ∧
    (padZeros 3 (Nat.repr (d.nanos / 1000000))).length = 3 := by
  refine ⟨rfl, padZeros_length _ (repr_length_le_three _ ?_)⟩
  exact Nat.div_lt_of_lt_mul (by omega)

/-- Witness for C10: the bound holds and the conclusion follows at the
concrete duration of 1 s and 234567890 ns, which prints as `1.234 s`. -/
theorem fmt_duration_as_secs_spec_witness :
    (234567890 : Nat) < 1000000000 ∧
    fmt_duration_as_secs ⟨1, 234567890⟩ = "1.234 s" ∧
    (padZeros 3 (Nat.repr (234567890 / 1000000))).length = 3 :=
  ⟨by norm_num, rfl, (fmt_duration_as_secs_spec ⟨1, 234567890⟩ (by norm_num)).2⟩

/-! ### C4 — cache round trip -/

/-- C4 (code bug evidence): saving a crate set always succeeds, but loading
the cache back unconditionally panics with "not implemented"
(`load_cached_crate_list` is `unimplemented!()`), so a save-then-load round
trip never yields the saved crate set, for any set, path, file system and
timing. -/
theorem save_then_load_panics (crates : List Crate) (path : String)
    (fs : FileSystem) (d : Duration) :
    ∃ fs2 log, save_crate_list crates path fs d = Except.ok (fs2, log) ∧
      load_cached_crate_list path fs2 =
        Except.error (Failure.panicked "not implemented") :=
  ⟨_, _, rfl, rfl⟩

/-! ### C5 — only deep regular files are yielded -/

/-- C5: every name the index walker yields comes from a regular file whose
depth below the walk root is strictly greater than 1; consequently shard
directories (depth 1), the root itself (depth 0) and directories in general
are never yielded. -/
theorem list_registry_crates_only_deep_files (root : FsEntry) (s : String)
    (h : s ∈ list_registry_crates root) :
    ∃ f : DirEntry, WEntry.ok f ∈ walkFrom root 0 [] ∧ f.isFile = true ∧
      1 < f.depth ∧ f.name = s := by
  unfold list_registry_crates crateNamesOfStream at h
  rw [List.mem_filterMap] at h
  obtain ⟨e, he, hpick⟩ := h
  cases e with
  | err w => simp at hpick
  | ok f =>
    have hred : (if f.isFile = true ∧ 1 < f.depth then some f.name else none) = some s := hpick
    by_cases hc : f.isFile = true ∧ 1 < f.depth
    · rw [if_pos hc] at hred
      exact ⟨f, he, hc.1, hc.2, Option.some_injective _ hred⟩
    · rw [if_neg hc] at hred
      exact absurd hred (by simp)

/-- Witness for C5: on the concrete registry tree `r/sh/a` the name `a` is
yielded, and it indeed stems from a regular file at depth 2. -/
theorem list_registry_crates_only_deep_files_witness :
    "a" ∈ list_registry_crates exC5Tree ∧
    ∃ f : DirEntry, WEntry.ok f ∈ walkFrom exC5Tree 0 [] ∧ f.isFile = true ∧
      1 < f.depth ∧ f.name = "a" :=
  ⟨by decide, list_registry_crates_only_deep_files exC5Tree "a" (by decide)⟩

/-! ### C6 — `.git` subtrees are not excluded -/

/-- C6 counterexample: the walker applies no `.git` filtering.  On the tree
`r/.git/objects/ab` the walk yields the file entry `ab` whose ancestor chain
contains `.git`, and `list_registry_crates` returns exactly `["ab"]` — an
entry inside a `.git`-named subdirectory is yielded, contradicting the
claim. -/
theorem git_contents_are_yielded :
    WEntry.ok ⟨3, true, ["r", ".git", "objects"], "ab"⟩ ∈ walkFrom exC6Tree 0 [] ∧
    ".git" ∈ (["r", ".git", "objects"] : List String) ∧
    list_registry_crates exC6Tree = ["ab"] :=
  ⟨by decide, by decide, rfl⟩

/-- C6 amended: the walker performs no version-control (or any name-based)
filtering: every successfully read regular-file entry at depth strictly
greater than 1 is yielded, whether or not a `.git` directory lies on its
ancestor chain. -/
theorem walker_has_no_git_filter (root : FsEntry) (f : DirEntry)
    (hmem : WEntry.ok f ∈ walkFrom root 0 []) (hfile : f.isFile = true)
    (hdepth : 1 < f.depth) :
    f.name ∈ list_registry_crates root := by
  unfold list_registry_crates crateNamesOfStream
  rw [List.mem_filterMap]
  exact ⟨WEntry.ok f, hmem, by simp [hfile, hdepth]⟩

/-- Witness for the amended C6: the file `ab` inside `r/.git/objects` is a
regular file at depth 3 and is yielded. -/
theorem walker_has_no_git_filter_witness :
    WEntry.ok ⟨3, true, ["r", ".git", "objects"], "ab"⟩ ∈ walkFrom exC6Tree 0 [] ∧
    "ab" ∈ list_registry_crates exC6Tree :=
  ⟨by decide, walker_has_no_git_filter exC6Tree ⟨3, true, ["r", ".git", "objects"], "ab"⟩
    (by decide) rfl (by norm_num)⟩

/-! ### C7 — unreadable entries: skipped, non-fatal, but silent -/


/-- C7 counterexample: the walk of `exC7BadTree` contains a failed entry, yet
the program's entire observable behaviour — the returned crate set and every
printed line — is identical to the run on the same tree without that entry,
and the only printed lines are the two aggregate count lines.  The failed
entry is skipped and non-fatal, but no diagnostic whatsoever is emitted,
contradicting "skipped with a diagnostic". -/
theorem walk_error_skipped_without_diagnostic :
    WEntry.err ⟨["r", "1"], "bad"⟩ ∈ walkFrom exC7BadTree 0 [] ∧
    find_crates exC7BadTree (fun _ => none) ⟨0, 0⟩ ⟨0, 0⟩ =
      find_crates exC7GoodTree (fun _ => none) ⟨0, 0⟩ ⟨0, 0⟩ ∧
    find_crates exC7BadTree (fun _ => none) ⟨0, 0⟩ ⟨0, 0⟩ =
      Except.ok ([], ["Found 1 crates in 0.000 s", "Loaded 0 crate versions in 0.000 s"]) :=
  ⟨by decide, rfl, rfl⟩

/-- C7 amended: an entry that cannot be stat'd or read is skipped silently —
removing a failed item from the walk stream never changes the yielded names —
and such an entry never makes the walk or the crate listing fail:
`find_crates` always returns `Ok` with exactly the two aggregate count lines
as its only output. -/
theorem walk_errors_skipped_silently :
    (∀ (xs ys : List WEntry) (w : WalkError),
      crateNamesOfStream (xs ++ WEntry.err w :: ys) = crateNamesOfStream (xs ++ ys)) ∧
    (∀ (regpath : FsEntry) (query : String → Option (List Summary)) (d1 d2 : Duration),
      ∃ crates : List Crate,
        find_crates regpath query d1 d2 =
          Except.ok (crates, [foundLine (list_registry_crates regpath).length d1,
            loadedLine crates.length d2])) := by
  constructor
  · intro xs ys w
    simp [crateNamesOfStream, List.filterMap_append, List.filterMap_cons]
  · intro regpath query d1 d2
    exact ⟨_, rfl⟩

/-! ### C1 — resolver returns the first satisfying version -/

/-- A successful `find?` returns a satisfying element, and everything before
it in the list fails the predicate. -/
lemma find?_decomp {α : Type} (p : α → Bool) :
    ∀ (l : List α) (w : α), l.find? p = some w →
      p w = true ∧ ∃ pre post, l = pre ++ w :: post ∧ ∀ y ∈ pre, p y = false := by
  intro l
  induction l with
  | nil => intro w h; simp [List.find?] at h
  | cons x rest ih =>
    intro w h
    rw [List.find?] at h
    cases hp : p x with
    | true =>
      rw [hp] at h
      have hxw : x = w := by injection h
      subst hxw
      exact ⟨hp, [], rest, rfl, by simp⟩
    | false =>
      rw [hp] at h
      obtain ⟨hw, pre, post, hrest, hpre⟩ := ih w h
      refine ⟨hw, x :: pre, post, by rw [hrest]; rfl, ?_⟩
      intro y hy
      rcases List.mem_cons.mp hy with rfl | hy2
      · exact hp
      · exact hpre y hy2

/-- A successful name lookup yields a pair of the association list. -/
lemma lookupByName_mem :
    ∀ (m : List (String × Package)) (key : String) (p : Package),
      lookupByName m key = some p → (key, p) ∈ m := by
  intro m
  induction m with
  | nil => intro key p h; simp [lookupByName] at h
  | cons kp rest ih =>
    intro key p h
    obtain ⟨k, q⟩ := kp
    rw [lookupByName] at h
    by_cases hk : k = key
    · rw [if_pos hk] at h
      have : q = p := by injection h
      subst this
      subst hk
      exact List.mem_cons_self _ _
    · rw [if_neg hk] at h
      exact List.mem_cons_of_mem _ (ih key p h)

/-- C1: whenever the resolver returns a version record `w` for a dependency
`d` against a well-formed package index, `w` carries the dependency's name,
`w`'s version satisfies the dependency's requirement, and `w` is the first
satisfying record in the looked-up package's stored (newest-first) version
order: every record before it fails the requirement. -/
theorem resolve_first_satisfying (dep : Dependency) (index : PackageIndex)
    (w : VersionRecord) (hwf : IndexWF index) (h : resolve dep index = some w) :
    w.name = dep.name ∧ dep.req.matches w.vers = true ∧
    ∃ pkg pre post, lookupByName index.by_name dep.name = some pkg ∧
      pkg.versions = pre ++ w :: post ∧
      ∀ y ∈ pre, dep.req.matches y.vers = false := by
  unfold resolve at h
  cases hlook : lookupByName index.by_name dep.name with
  | none => rw [hlook] at h; exact absurd h (by simp)
  | some pkg =>
    rw [hlook] at h
    obtain ⟨hw, pre, post, hvers, hpre⟩ := find?_decomp _ pkg.versions w h
    have hmem : (dep.name, pkg) ∈ index.by_name := lookupByName_mem _ _ _ hlook
    have hname : w.name = dep.name := by
      apply hwf (dep.name, pkg) hmem
      rw [hvers]
      exact List.mem_append_right _ (List.mem_cons_self _ _)
    exact ⟨hname, hw, pkg, pre, post, rfl, hvers, hpre⟩



/-- Witness for C1: against the concrete index, `^1.0` skips the newest
record 2.0.0 (which fails the requirement) and resolves to 1.5.0, the first
satisfying record in newest-first order. -/
theorem resolve_first_satisfying_witness :
    IndexWF exC1Index ∧
    resolve exC1Dep exC1Index = some exC1Vr15 ∧
    (exC1Vr15.name = exC1Dep.name ∧ exC1Dep.req.matches exC1Vr15.vers = true ∧
      ∃ pkg pre post, lookupByName exC1Index.by_name exC1Dep.name = some pkg ∧
        pkg.versions = pre ++ exC1Vr15 :: post ∧
        ∀ y ∈ pre, exC1Dep.req.matches y.vers = false) :=
  ⟨by unfold IndexWF; decide, by decide,
    resolve_first_satisfying exC1Dep exC1Index exC1Vr15 (by unfold IndexWF; decide) (by decide)⟩

/-! ### C2 — graph acyclicity and cycle rejection -/

/-- Membership after one saturation round. -/
lemma mem_stepClose {es : List (Nat × Nat)} {S : Finset Nat} {x : Nat} :
    x ∈ stepClose es S ↔ x ∈ S ∨ ∃ e ∈ es, e.1 ∈ S ∧ e.2 = x := by
  have main : ∀ (l : List (Nat × Nat)) (acc : Finset Nat),
      x ∈ l.foldl (fun acc e => if e.1 ∈ S then insert e.2 acc else acc) acc ↔
        x ∈ acc ∨ ∃ e ∈ l, e.1 ∈ S ∧ e.2 = x := by
    intro l
    induction l with
    | nil => intro acc; simp
    | cons e rest ih =>
      intro acc
      rw [List.foldl_cons]
      by_cases he : e.1 ∈ S
      · rw [if_pos he, ih]
        simp only [Finset.mem_insert, List.mem_cons]
        constructor
        · rintro ((h | h) | ⟨e2, he2, h1, h2⟩)
          · exact Or.inr ⟨e, Or.inl rfl, he, h.symm⟩
          · exact Or.inl h
          · exact Or.inr ⟨e2, Or.inr he2, h1, h2⟩
        · rintro (h | ⟨e2, (rfl | he2), h1, h2⟩)
          · exact Or.inl (Or.inr h)
          · exact Or.inl (Or.inl h2.symm)
          · exact Or.inr ⟨e2, he2, h1, h2⟩
      · rw [if_neg he, ih]
        simp only [List.mem_cons]
        constructor
        · rintro (h | ⟨e2, he2, h1, h2⟩)
          · exact Or.inl h
          · exact Or.inr ⟨e2, Or.inr he2, h1, h2⟩
        · rintro (h | ⟨e2, (rfl | he2), h1, h2⟩)
          · exact Or.inl h
          · exact absurd h1 he
          · exact Or.inr ⟨e2, he2, h1, h2⟩
  exact main es S

/-- A set is contained in its saturation round. -/
lemma subset_stepClose (es : List (Nat × Nat)) (S : Finset Nat) :
    S ⊆ stepClose es S :=
  fun _ hx => mem_stepClose.mpr (Or.inl hx)

/-- One saturation round only adds edge targets. -/
lemma stepClose_subset (es : List (Nat × Nat)) (S : Finset Nat) :
    stepClose es S ⊆ S ∪ targetsOf es := by
  intro x hx
  rcases mem_stepClose.mp hx with h | ⟨e, he, _, h2⟩
  · exact Finset.mem_union_left _ h
  · refine Finset.mem_union_right _ ?_
    subst h2
    unfold targetsOf
    rw [List.mem_toFinset]
    exact List.mem_map_of_mem _ he

/-- A set is contained in its iterated saturation. -/
lemma subset_iterClose (es : List (Nat × Nat)) :
    ∀ (k : Nat) (S : Finset Nat), S ⊆ iterClose es k S := by
  intro k
  induction k with
  | zero => intro S; exact Finset.Subset.refl S
  | succ k ih =>
    intro S
    exact (subset_stepClose es S).trans (ih (stepClose es S))

/-- A closed set is a fixed point of the saturation round. -/
lemma stepClose_eq_of_closed {es : List (Nat × Nat)} {S : Finset Nat}
    (h : IsClosed es S) : stepClose es S = S := by
  apply Finset.Subset.antisymm
  · intro x hx
    rcases mem_stepClose.mp hx with hm | ⟨e, he, h1, h2⟩
    · exact hm
    · subst h2; exact h e he h1
  · exact subset_stepClose es S

/-- A fixed point of the saturation round is closed. -/
lemma closed_of_stepClose_eq {es : List (Nat × Nat)} {S : Finset Nat}
    (h : stepClose es S = S) : IsClosed es S := by
  intro e he h1
  have : e.2 ∈ stepClose es S := mem_stepClose.mpr (Or.inr ⟨e, he, h1, rfl⟩)
  rwa [h] at this

/-- Iterated saturation leaves a closed set unchanged. -/
lemma iterClose_eq_of_closed {es : List (Nat × Nat)} :
    ∀ (k : Nat) {S : Finset Nat}, IsClosed es S → iterClose es k S = S := by
  intro k
  induction k with
  | zero => intro S _; rfl
  | succ k ih =>
    intro S h
    show iterClose es k (stepClose es S) = S
    rw [stepClose_eq_of_closed h]
    exact ih h

/-- Enough saturation rounds produce a closed set: each useful round grows
the set inside the fixed universe `U`, so with more rounds than `U` has
elements a fixed point is reached. -/
lemma iterClose_closed (es : List (Nat × Nat)) (U : Finset Nat)
    (hT : targetsOf es ⊆ U) :
    ∀ (k : Nat) (S : Finset Nat), S ⊆ U → U.card ≤ S.card + k →
      IsClosed es (iterClose es k S) := by
  intro k
  induction k with
  | zero =>
    intro S hSU hcard
    have hSeq : S = U := Finset.eq_of_subset_of_card_le hSU (by omega)
    subst hSeq
    intro e he _
    exact hT (by unfold targetsOf; rw [List.mem_toFinset]; exact List.mem_map_of_mem _ he)
  | succ k ih =>
    intro S hSU hcard
    by_cases hfix : stepClose es S = S
    · have hclosed : IsClosed es S := closed_of_stepClose_eq hfix
      show IsClosed es (iterClose es k (stepClose es S))
      rw [hfix, iterClose_eq_of_closed k hclosed]
      exact hclosed
    · have hssub : S ⊂ stepClose es S :=
        Finset.ssubset_iff_subset_ne.mpr ⟨subset_stepClose es S, fun h => hfix h.symm⟩
      have hlt : S.card < (stepClose es S).card := Finset.card_lt_card hssub
      have hsub2 : stepClose es S ⊆ U := by
        intro x hx
        rcases Finset.mem_union.mp (stepClose_subset es S hx) with h | h
        · exact hSU h
        · exact hT h
      exact ih (stepClose es S) hsub2 (by omega)

/-- The saturated reachable set is closed under the edge relation. -/
lemma reachableFrom_closed (es : List (Nat × Nat)) (a : Nat) :
    IsClosed es (reachableFrom es a) := by
  unfold reachableFrom
  apply iterClose_closed es (succsOf es a ∪ targetsOf es)
    (Finset.subset_union_right) (es.length + 1) (succsOf es a)
    (Finset.subset_union_left)
  have h1 : (succsOf es a ∪ targetsOf es).card ≤ (succsOf es a).card + (targetsOf es).card :=
    Finset.card_union_le _ _
  have h2 : (targetsOf es).card ≤ es.length := by
    unfold targetsOf
    exact (List.toFinset_card_le _).trans (by rw [List.length_map])
  omega

/-- Direct successors are reachable. -/
lemma succsOf_subset_reachableFrom (es : List (Nat × Nat)) (a : Nat) :
    succsOf es a ⊆ reachableFrom es a :=
  subset_iterClose es (es.length + 1) (succsOf es a)

/-- Completeness of the executable reachability check: any vertex reachable
by at least one edge is in the saturated set. -/
lemma mem_reachableFrom_of_transGen {es : List (Nat × Nat)} {a b : Nat}
    (h : Relation.TransGen (fun x y => (x, y) ∈ es) a b) :
    b ∈ reachableFrom es a := by
  induction h with
  | single hab =>
    apply succsOf_subset_reachableFrom
    unfold succsOf
    rw [List.mem_toFinset]
    refine List.mem_map.mpr ⟨_, List.mem_filter.mpr ⟨hab, by simp⟩, rfl⟩
  | tail hax hxb ih =>
    exact reachableFrom_closed es a _ hxb ih

/-- Any path in a graph extended by the edge `(a, b)` either avoids the new
edge entirely, or can be split at its last use of the new edge: the start
reaches `a` and `b` reaches the end, both in the old graph. -/
lemma transGen_insert_edge {es : List (Nat × Nat)} {a b x y : Nat}
    (h : Relation.TransGen (fun u v => (u, v) ∈ (a, b) :: es) x y) :
    Relation.TransGen (fun u v => (u, v) ∈ es) x y ∨
      (Relation.ReflTransGen (fun u v => (u, v) ∈ es) x a ∧
       Relation.ReflTransGen (fun u v => (u, v) ∈ es) b y) := by
  induction h with
  | single hxy =>
    rename_i c
    rcases List.mem_cons.mp hxy with heq | hmem
    · have h1 : x = a := congrArg Prod.fst heq
      have h2 : c = b := congrArg Prod.snd heq
      subst h1
      subst h2
      exact Or.inr ⟨Relation.ReflTransGen.refl, Relation.ReflTransGen.refl⟩
    · exact Or.inl (Relation.TransGen.single hmem)
  | tail hxz hzy ih =>
    rename_i z w
    rcases List.mem_cons.mp hzy with heq | hmem
    · have h1 : z = a := congrArg Prod.fst heq
      have h2 : w = b := congrArg Prod.snd heq
      subst h1
      subst h2
      rcases ih with h | ⟨hxa, _⟩
      · exact Or.inr ⟨h.to_reflTransGen, Relation.ReflTransGen.refl⟩
      · exact Or.inr ⟨hxa, Relation.ReflTransGen.refl⟩
    · rcases ih with h | ⟨hxa, hbz⟩
      · exact Or.inl (h.tail hmem)
      · exact Or.inr ⟨hxa, hbz.tail hmem⟩

/-- A successful `add_edge` preserves acyclicity. -/
lemma acyclic_add_edge {g g2 : Dag} {a b : Nat} (hacyc : AcyclicDag g)
    (h : add_edge g a b = Except.ok g2) : AcyclicDag g2 := by
  unfold add_edge at h
  by_cases hc : a = b ∨ a ∈ reachableFrom g.edges b
  · rw [if_pos hc] at h
    exact absurd h (by simp)
  · rw [if_neg hc] at h
    push_neg at hc
    obtain ⟨hab, hreach⟩ := hc
    have hg2 : g2 = ⟨g.nodeCount, (a, b) :: g.edges⟩ := by
      injection h with h2
      exact h2.symm
    subst hg2
    intro v hv
    have hv2 : Relation.TransGen (fun u w => (u, w) ∈ (a, b) :: g.edges) v v := hv
    rcases transGen_insert_edge hv2 with h | ⟨hva, hbv⟩
    · exact hacyc v h
    · have hba : Relation.ReflTransGen (fun u w => (u, w) ∈ g.edges) b a := hbv.trans hva
      rcases Relation.reflTransGen_iff_eq_or_transGen.mp hba with heq | htrans
      · exact hab heq
      · exact hreach (mem_reachableFrom_of_transGen htrans)

/-- The empty graph is acyclic. -/
lemma acyclic_emptyDag : AcyclicDag emptyDag := by
  intro v hv
  cases hv with
  | single h => exact absurd h (List.not_mem_nil _)
  | tail _ h => exact absurd h (List.not_mem_nil _)

/-- Node allocation does not touch the edges, hence preserves acyclicity. -/
lemma acyclic_add_node {g : Dag} (h : AcyclicDag g) : AcyclicDag (add_node g) := h

/-- Every intermediate graph of a successful build is acyclic. -/
lemma acyclic_foldlM (steps : List BuildStep) :
    ∀ (g0 g : Dag), AcyclicDag g0 → steps.foldlM applyStep g0 = Except.ok g →
      AcyclicDag g := by
  induction steps with
  | nil =>
    intro g0 g h0 h
    have h2 : Except.ok (ε := GraphError) g0 = Except.ok g := h
    injection h2 with h3
    subst h3
    exact h0
  | cons s rest ih =>
    intro g0 g h0 h
    rw [List.foldlM_cons] at h
    cases happly : applyStep g0 s with
    | error e =>
      rw [happly] at h
      exact Except.noConfusion (show Except.error (α := Dag) e = Except.ok g from h)
    | ok g1 =>
      rw [happly] at h
      have h1 : AcyclicDag g1 := by
        cases s with
        | node =>
          have hg1 : add_node g0 = g1 := by
            simpa [applyStep] using happly
          subst hg1
          exact acyclic_add_node h0
        | edge a b => exact acyclic_add_edge h0 happly
      exact ih g1 g h1 h

/-- C2: every successfully built dependency graph is acyclic — there is no
edge sequence `v1 → v2 → … → vn → v1` — and an edge insertion that would
close a cycle (the target already reaches the source, or the edge is a
self-loop) is never silently dropped or silently accepted: it returns the
reportable `wouldCycle` error identifying the offending edge. -/
theorem dag_build_acyclic_and_cycle_rejected :
    (∀ (steps : List BuildStep) (g : Dag), buildDag steps = Except.ok g → AcyclicDag g) ∧
    (∀ (g : Dag) (a b : Nat), Relation.ReflTransGen (EdgeRel g) b a →
      add_edge g a b = Except.error (GraphError.wouldCycle a b)) := by
  constructor
  · intro steps g h
    exact acyclic_foldlM steps emptyDag g acyclic_emptyDag h
  · intro g a b h
    unfold add_edge
    rcases Relation.reflTransGen_iff_eq_or_transGen.mp h with heq | htrans
    · rw [if_pos (Or.inl heq)]
    · rw [if_pos (Or.inr (mem_reachableFrom_of_transGen htrans))]


/-- Witness for C2: the concrete build of `0 → 1` succeeds and is acyclic by
the theorem, and inserting the closing edge `1 → 0` is rejected with the
`wouldCycle` error. -/
theorem dag_build_acyclic_and_cycle_rejected_witness :
    buildDag exC2Steps = Except.ok exC2Dag ∧
    AcyclicDag exC2Dag ∧
    add_edge exC2Dag 1 0 = Except.error (GraphError.wouldCycle 1 0) :=
  ⟨rfl,
    dag_build_acyclic_and_cycle_rejected.1 exC2Steps exC2Dag rfl,
    dag_build_acyclic_and_cycle_rejected.2 exC2Dag 1 0
      (Relation.ReflTransGen.single (show (0, 1) ∈ exC2Dag.edges by decide))⟩

/-! ### C8 — cache-hit path always panics -/

/-- C8: when the on-disk cache file exists, `get_crate_list` takes the load
path and therefore always panics with "not implemented" (the load operation
is unimplemented), never returning a crate set; only when the cache file is
absent does it build the crate set with `find_crates`, save it to the cache
file, and return it. -/
theorem get_crate_list_cache_behavior (regname : String) (regtree : FsEntry)
    (query : String → Option (List Summary)) (fs : FileSystem) (d1 d2 d3 : Duration) :
    ((lookupFile fs (cacheFileName regname)).isSome = true →
      get_crate_list regname regtree query fs d1 d2 d3 =
        Except.error (Failure.panicked "not implemented")) ∧
    ((lookupFile fs (cacheFileName regname)).isSome = false →
      ∃ crates log1, find_crates regtree query d1 d2 = Except.ok (crates, log1) ∧
        get_crate_list regname regtree query fs d1 d2 d3 =
          Except.ok (crates, createFile fs (cacheFileName regname) (FileData.bincodeOf crates),
            log1 ++ [savedLine d3])) := by
  constructor
  · intro h
    unfold get_crate_list
    simp only [h, if_true, load_cached_crate_list]
  · intro h
    unfold get_crate_list
    simp only [h, Bool.false_eq_true, if_false]
    exact ⟨_, _, rfl, rfl⟩


/-- Witness for C8, applying the theorem on both sides of the cache check:
with `reg.cache` present the call panics; with an empty file system it walks,
saves and returns. -/
theorem get_crate_list_cache_behavior_witness :
    (lookupFile exC8Fs (cacheFileName "reg")).isSome = true ∧
    get_crate_list "reg" exC8Tree (fun _ => none) exC8Fs ⟨0, 0⟩ ⟨0, 0⟩ ⟨0, 0⟩ =
      Except.error (Failure.panicked "not implemented") ∧
    (lookupFile ([] : FileSystem) (cacheFileName "reg")).isSome = false ∧
    (∃ crates log1,
      find_crates exC8Tree (fun _ => none) ⟨0, 0⟩ ⟨0, 0⟩ = Except.ok (crates, log1) ∧
      get_crate_list "reg" exC8Tree (fun _ => none) ([] : FileSystem) ⟨0, 0⟩ ⟨0, 0⟩ ⟨0, 0⟩ =
        Except.ok (crates, createFile ([] : FileSystem) (cacheFileName "reg")
          (FileData.bincodeOf crates), log1 ++ [savedLine ⟨0, 0⟩])) :=
  ⟨rfl,
    (get_crate_list_cache_behavior "reg" exC8Tree (fun _ => none) exC8Fs
      ⟨0, 0⟩ ⟨0, 0⟩ ⟨0, 0⟩).1 rfl,
    rfl,
    (get_crate_list_cache_behavior "reg" exC8Tree (fun _ => none) ([] : FileSystem)
      ⟨0, 0⟩ ⟨0, 0⟩ ⟨0, 0⟩).2 rfl⟩

end QueryCratesIndex
